import Mathlib

/-!
Shallow embedding of the quiz-platform core of `src/server.js` (a small
Wayground/Quizizz clone: quiz creation, participant join with IP
allow/deny lists, sequential answering with strict multi-select scoring,
and a result view).  Pure functions of the source become Lean functions;
the mutable per-quiz state becomes explicit state passing on a `Quiz`
value; handlers that can fail return `Except`, and the handler path that
throws a TypeError is made explicit in its outcome type.
-/

/--
A JavaScript value that can appear in the arrays handed to
`arraysEqualUnordered` by the two call sites in `src/server.js`
(lines 285 and 369): an integer number (submitted indices come from
`parseInt`, correct indices from the quiz JSON), or `undefined`, which
reaches the comparison when a question object has no `correct` field,
since `[q.correct]` is then `[undefined]`.
-/
inductive JSVal where
  | int (i : Int)
  | undef
deriving DecidableEq

/--
Little-endian base-10 digits of `n`, with explicit structural fuel so
that concrete evaluation reduces inside the kernel.  `digitsRev n n` is
the digit list of `n` whenever `n > 0` (the fuel `n` is always enough
because `n / 10 < n`).
-/
def digitsRev (fuel n : Nat) : List Nat :=
  match fuel with
  | 0 => []
  | f + 1 => if n = 0 then [] else n % 10 :: digitsRev f (n / 10)

/--
The characters of the base-10 numeral of `n`: what ECMAScript `ToString`
produces for a nonnegative integer number.
-/
def natChars (n : Nat) : List Char :=
  if n = 0 then ['0'] else ((digitsRev n n).map Nat.digitChar).reverse

/--
ECMAScript `ToString` of the values of `JSVal`, as a character list:
the decimal numeral with a leading `-` for negative integers, and the
literal word for `undefined`.
-/
def jsString : JSVal → List Char
  | .int i => if i < 0 then '-' :: natChars i.natAbs else natChars i.toNat
  | .undef => ['u', 'n', 'd', 'e', 'f', 'i', 'n', 'e', 'd']

/--
The order in which JavaScript's default sort comparator arranges values:
lexicographic comparison of their string representations by UTF-16 code
unit, which on these characters coincides with `Char` order.
-/
def jsLe (x y : JSVal) : Prop := jsString x ≤ jsString y

instance : DecidableRel jsLe :=
  fun x y => inferInstanceAs (Decidable (jsString x ≤ jsString y))

/--
Model of `[...a].sort()` with the default comparator.  ECMAScript
specifies the result only as a sorted (stable) permutation of the input;
`jsString` is injective on `JSVal` (proved below), so the sorted
permutation is unique and any sorting algorithm computes exactly the
array the source produces.  We use insertion sort, which reduces by
kernel computation.
-/
def sortJS (l : List JSVal) : List JSVal := List.insertionSort jsLe l

/--
`arraysEqualUnordered` (src/server.js lines 35-43): both call sites pass
arrays, so the `Array.isArray` guards never fire; the lengths must agree
and the sorted copies must agree element by element.
-/
def arraysEqualUnordered (a b : List JSVal) : Bool :=
  decide (a.length = b.length) && decide (sortJS a = sortJS b)

instance : IsTotal JSVal jsLe :=
  ⟨fun a b => le_total (jsString a) (jsString b)⟩

instance : IsTrans JSVal jsLe :=
  ⟨fun _ _ _ h₁ h₂ => le_trans h₁ h₂⟩

/--
JavaScript `String.prototype.trim`: strip leading and trailing
whitespace.  (ECMAScript trims WhiteSpace and LineTerminator code
points; on the inputs of interest `Char.isWhitespace` matches that
set.)  Defined over the character list so that concrete evaluation
reduces inside the kernel.
-/
def jsTrim (s : String) : String :=
  ⟨((s.data.dropWhile Char.isWhitespace).reverse.dropWhile Char.isWhitespace).reverse⟩

/--
An option of a question as accepted at creation: either a plain text
string or an object with `text` and an optional `image` reference.  The
distinction only affects rendering; the answering logic uses only the
position of an option.
-/
inductive QOption where
  | plain (text : String)
  | withImage (text : String) (image : Option String)
deriving DecidableEq

/--
The `correct` field of a question as submitted at creation.  Creation
performs no validation of this field, so besides an array of integers it
can be a single integer (the shape the coercion at lines 284 and 360 of
src/server.js exists for) or missing entirely (`undefined`).
-/
inductive CorrectField where
  | arr (l : List Int)
  | single (i : Int)
  | undef
deriving DecidableEq

/--
A question object as stored by `POST /create`.  Every field is optional
because creation stores whatever `JSON.parse` produced without checking
the question structure; the handlers read `q.question`, `q.options`,
`q.correct` and `q.questionImage`.
-/
structure Question where
  question : Option String
  options : Option (List QOption)
  correct : CorrectField
  questionImage : Option String
deriving DecidableEq

/--
A participant record as created by the join handler (src/server.js
lines 244-249): display name, the list of recorded answers (one list of
selected indices per submission), the running score, and the IP captured
at join time.
-/
structure Participant where
  name : String
  answers : List (List Int)
  score : Nat
  ip : String
deriving DecidableEq

/--
A quiz as stored in the registry (src/server.js lines 182-189).
`participants` is a JS object used as a map from participant id to
record, modelled as an insertion-ordered association list with unique
keys; `whitelist` and `blacklist` are JS `Set`s of IP strings, modelled
as insertion-ordered duplicate-free lists.
-/
structure Quiz where
  title : String
  questions : List Question
  participants : List (String × Participant)
  whitelist : List String
  blacklist : List String
deriving DecidableEq

/-- Lookup in a JS object used as a map: `quiz.participants[pid]`. -/
def getParticipant : List (String × Participant) → String → Option Participant
  | [], _ => none
  | (k, v) :: rest, pid => if k = pid then some v else getParticipant rest pid

/--
Assignment `quiz.participants[pid] = p`: a JS object keeps one value per
key, so an existing entry is replaced in place and a new key is appended.
-/
def putParticipant : List (String × Participant) → String → Participant →
    List (String × Participant)
  | [], pid, p => [(pid, p)]
  | (k, v) :: rest, pid, p =>
    if k = pid then (pid, p) :: rest else (k, v) :: putParticipant rest pid p

/-- `s.add(x)` on a JS `Set`: inserts at the end when absent. -/
def setAdd (l : List String) (x : String) : List String :=
  if x ∈ l then l else l ++ [x]

/-- `s.delete(x)` on a JS `Set`: removes the element when present. -/
def setDelete (l : List String) (x : String) : List String :=
  l.filter (fun y => y ≠ x)

/--
Result of `JSON.parse(body.data)` as the create handler sees it: the
parse may throw (caught at src/server.js lines 165-171), yield a value
that is not an array, or yield an array of question objects.
-/
inductive ParsedData where
  | malformed
  | nonArray
  | arr (qs : List Question)

/--
The two 400 responses of `POST /create`: "Invalid quiz data submitted."
when `JSON.parse` throws, and "Please provide a quiz title and at least
one question." for the remaining validation.
-/
inductive CreateError where
  | invalidData
  | validation
deriving DecidableEq

/--
`POST /create` handler core (src/server.js lines 161-202).  `bodyTitle`
is `body.title` (absent or a string); the handler trims it and treats the
empty result as missing (`body.title && body.title.trim()` followed by
`!title`).  Only the title and the shape "non-empty array" of the parsed
data are validated; the question objects themselves are stored as-is.
The random join code is chosen at registry level and is not part of the
per-quiz state.
-/
def createQuiz (bodyTitle : Option String) (data : ParsedData) : Except CreateError Quiz :=
  let title : Option String :=
    match bodyTitle with
    | none => none
    | some t => if jsTrim t = "" then none else some (jsTrim t)
  match data with
  | .malformed => .error .invalidData
  | .nonArray => .error .validation
  | .arr qs =>
    match title with
    | none => .error .validation
    | some t =>
      if qs = [] then .error .validation
      else .ok { title := t, questions := qs, participants := [],
                 whitelist := [], blacklist := [] }

/-- The alphabet of `generateCode` (src/server.js lines 49-56). -/
def codeAlphabet : List Char := "ABCDEFGHIJKLMNOPQRSTUVWXYZ0123456789".toList

/--
The set of strings `generateCode` can return: 6 characters drawn from
`codeAlphabet`.  The function itself draws from `Math.random`, so the
embedding passes its output to the handlers as a parameter constrained
by this predicate.
-/
def IsGeneratedCode (s : String) : Prop :=
  s.toList.length = 6 ∧ ∀ c ∈ s.toList, c ∈ codeAlphabet

instance (s : String) : Decidable (IsGeneratedCode s) :=
  inferInstanceAs (Decidable (_ ∧ _))

/--
The failure responses of `POST /join` (src/server.js lines 213-254):
404 for an unknown code, 400 for a missing name, 403 "Access Denied" for
a blacklisted IP, 403 "Access Restricted" when a non-empty whitelist
does not contain the IP.
-/
inductive JoinError where
  | quizNotFound
  | invalidName
  | accessDenied
  | accessRestricted
deriving DecidableEq

/--
`POST /join` handler core for a resolved quiz (src/server.js
lines 222-253).  `bodyName` is `body.name`; `ip` is the requester
address the handler derives from `x-forwarded-for` or the socket; `pid`
is the value returned by `generateCode()` — passed as a parameter since
it is randomly drawn.  The handler does not check `pid` against the
existing participant keys.
-/
def join (quiz : Quiz) (bodyName : Option String) (ip : String) (pid : String) :
    Except JoinError Quiz :=
  let name := jsTrim (bodyName.getD "")
  if name = "" then .error .invalidName
  else if ip ∈ quiz.blacklist then .error .accessDenied
  else if quiz.whitelist ≠ [] ∧ ip ∉ quiz.whitelist then .error .accessRestricted
  else .ok { quiz with
    participants := putParticipant quiz.participants pid
      { name := name, answers := [], score := 0, ip := ip } }

/--
`body.answer` as the take handler sees it after form parsing: absent, a
single raw value, or an array of raw values.  Each raw value is
represented by its `parseInt` result: `some n` when `parseInt` yields
the integer `n`, `none` when it yields `NaN`.
-/
inductive BodyAnswer where
  | undef
  | one (v : Option Int)
  | many (vs : List (Option Int))

/--
Normalization of `body.answer` into the recorded `selected` array
(src/server.js lines 273-281): an absent answer or a single unparsable
value becomes `[]`; an array keeps, in order, exactly the entries that
parse to an integer; a single parsable value becomes a one-element array.
-/
def normalizeSelected : BodyAnswer → List Int
  | .undef => []
  | .many vs => vs.filterMap id
  | .one none => []
  | .one (some n) => [n]

/--
`Array.isArray(q.correct) ? q.correct : [q.correct]` — the coercion of
the `correct` field performed identically at src/server.js line 284
(submit-time scoring) and line 360 (result view).
-/
def correctIndices : CorrectField → List JSVal
  | .arr l => l.map JSVal.int
  | .single i => [JSVal.int i]
  | .undef => [JSVal.undef]

/--
Outcome of the answer-recording branch of `POST /take/:code/:pid`
(src/server.js lines 257-295).  `notFound` is the 404 page for an
unknown participant id.  `crash` is the path taken when the participant
has already answered every question: `quiz.questions[qIndex]` is
`undefined`, the handler pushes the submission anyway and then throws a
TypeError evaluating `q.correct`; the quiz carried by `crash` is the
state left in memory by the aborted request.
-/
inductive SubmitOutcome where
  | notFound
  | crash (quiz : Quiz)
  | ok (quiz : Quiz)
deriving DecidableEq

/--
Answer submission (src/server.js lines 269-288): look up the
participant, normalize `body.answer`, append the normalized array to
`participant.answers`, then compare it with the coerced `correct` field
of the current question and increment `participant.score` on equality.
-/
def submitAnswer (quiz : Quiz) (pid : String) (ans : BodyAnswer) : SubmitOutcome :=
  match getParticipant quiz.participants pid with
  | none => .notFound
  | some p =>
    let selected := normalizeSelected ans
    let p1 : Participant := { p with answers := p.answers ++ [selected] }
    match quiz.questions[p.answers.length]? with
    | none => .crash { quiz with participants := putParticipant quiz.participants pid p1 }
    | some q =>
      let p2 : Participant :=
        if arraysEqualUnordered (selected.map JSVal.int) (correctIndices q.correct)
        then { p1 with score := p1.score + 1 }
        else p1
      .ok { quiz with participants := putParticipant quiz.participants pid p2 }

/--
`POST /whitelist/:code` handler core (src/server.js lines 448-454):
trim the posted ip; when the result is non-empty, add it to the
whitelist and delete it from the blacklist; otherwise leave the quiz
unchanged (no error).
-/
def addToWhitelist (quiz : Quiz) (bodyIp : Option String) : Quiz :=
  let ip := jsTrim (bodyIp.getD "")
  if ip = "" then quiz
  else { quiz with whitelist := setAdd quiz.whitelist ip,
                   blacklist := setDelete quiz.blacklist ip }

/--
`POST /blacklist/:code` handler core (src/server.js lines 470-476):
trim the posted ip; when the result is non-empty, add it to the
blacklist and delete it from the whitelist; otherwise leave the quiz
unchanged (no error).
-/
def addToBlacklist (quiz : Quiz) (bodyIp : Option String) : Quiz :=
  let ip := jsTrim (bodyIp.getD "")
  if ip = "" then quiz
  else { quiz with blacklist := setAdd quiz.blacklist ip,
                   whitelist := setDelete quiz.whitelist ip }

/--
The per-question correctness flag computed by the result view
(src/server.js lines 358-369): `your = participant.answers[i] || []`
(an array is always truthy, so only a missing entry becomes `[]`), the
`correct` field coerced by the same rule as at submit time, compared
with the same `arraysEqualUnordered`.
-/
def resultIsCorrect (q : Question) (p : Participant) (i : Nat) : Bool :=
  arraysEqualUnordered (((p.answers[i]?).getD []).map JSVal.int)
    (correctIndices q.correct)

/-- A moderation action on the access lists of a quiz. -/
inductive ModOp where
  | wl (bodyIp : Option String)
  | bl (bodyIp : Option String)

/-- Apply one moderation action. -/
def applyOp (quiz : Quiz) : ModOp → Quiz
  | .wl ip => addToWhitelist quiz ip
  | .bl ip => addToBlacklist quiz ip

/-- Apply a sequence of moderation actions, oldest first. -/
def applyOps (quiz : Quiz) (ops : List ModOp) : Quiz :=
  ops.foldl applyOp quiz

/-! Concrete fixtures used by the witness and counterexample theorems. -/

/-- A multi-select demo question with three options and `correct = [1, 2]`. -/
def demoQuestion : Question :=
  { question := some "Which are even?",
    options := some [.plain "3", .plain "4", .plain "6"],
    correct := .arr [1, 2], questionImage := none }

/-- A freshly joined participant. -/
def demoParticipant : Participant :=
  { name := "Alice", answers := [], score := 0, ip := "1.2.3.4" }

/-- A demo quiz holding `demoQuestion` and the fresh participant `AAAAAA`. -/
def demoQuiz : Quiz :=
  { title := "Math", questions := [demoQuestion],
    participants := [("AAAAAA", demoParticipant)],
    whitelist := [], blacklist := [] }

/-- A single-answer demo question with `correct = 1` (not an array). -/
def singleQ : Question :=
  { question := some "2+2?",
    options := some [.plain "3", .plain "4", .plain "5"],
    correct := .single 1, questionImage := none }

/-- A participant who has already answered the only question of `doneQuiz`. -/
def doneParticipant : Participant :=
  { name := "Alice", answers := [[1]], score := 1, ip := "1.2.3.4" }

/-- A quiz whose only participant has completed all questions. -/
def doneQuiz : Quiz :=
  { title := "Math", questions := [singleQ],
    participants := [("PPPPPP", doneParticipant)],
    whitelist := [], blacklist := [] }

/-- The participant state left in memory by an answer submitted past completion. -/
def overflowParticipant : Participant :=
  { name := "Alice", answers := [[1], []], score := 1, ip := "1.2.3.4" }

/-- A question with a single option, so only index 0 is in range. -/
def tinyQuestion : Question :=
  { question := some "Pick", options := some [.plain "A"],
    correct := .arr [0], questionImage := none }

/-- A quiz holding `tinyQuestion` and one fresh participant `QQQQQQ`. -/
def tinyQuiz : Quiz :=
  { title := "T", questions := [tinyQuestion],
    participants := [("QQQQQQ", { name := "Bob", answers := [], score := 0, ip := "2.2.2.2" })],
    whitelist := [], blacklist := [] }

/-- A question object with every field missing, as `JSON.parse` can produce. -/
def emptyQuestion : Question :=
  { question := none, options := none, correct := .undef, questionImage := none }

/-- A quiz whose access lists transiently hold `9.9.9.9` in both lists. -/
def guardQuiz : Quiz :=
  { title := "Guarded", questions := [demoQuestion], participants := [],
    whitelist := ["9.9.9.9", "1.1.1.1"], blacklist := ["9.9.9.9"] }

/-- A participant with recorded progress, about to be overwritten by a colliding join. -/
def veteranParticipant : Participant :=
  { name := "Ann", answers := [[1, 2]], score := 1, ip := "3.3.3.3" }

/-- A quiz whose only participant id is `ZZZZZZ`. -/
def collisionQuiz : Quiz :=
  { title := "Math", questions := [demoQuestion],
    participants := [("ZZZZZZ", veteranParticipant)],
    whitelist := [], blacklist := [] }

/-- A quiz with a single-answer question and a fresh participant `CCCCCC`. -/
def singleQuiz : Quiz :=
  { title := "S", questions := [singleQ],
    participants := [("CCCCCC", { name := "Cara", answers := [], score := 0, ip := "4.4.4.4" })],
    whitelist := [], blacklist := [] }

/-- Replace only the two access lists of a quiz, leaving everything else. -/
def withLists (quiz : Quiz) (wl bl : List String) : Quiz :=
  { quiz with whitelist := wl, blacklist := bl }

/-- Map a function over the quiz state carried by a submission outcome. -/
def mapOutcome (f : Quiz → Quiz) : SubmitOutcome → SubmitOutcome
  | .notFound => .notFound
  | .crash q => .crash (f q)
  | .ok q => .ok (f q)

/-- A moderation sequence: blacklist an IP, then whitelist the same IP. -/
def demoOps : List ModOp :=
  [.bl (some "1.1.1.1"), .wl (some "1.1.1.1")]

theorem ofDigits_digitsRev : ∀ fuel n, n ≤ fuel → Nat.ofDigits 10 (digitsRev fuel n) = n := by
  intro fuel
  induction fuel with
  | zero => intro n hn; interval_cases n; simp [digitsRev, Nat.ofDigits]
  | succ f ih =>
    intro n hn
    by_cases h0 : n = 0
    · simp [digitsRev, h0, Nat.ofDigits]
    · have hdiv : n / 10 ≤ f := by
        have : n / 10 < n := Nat.div_lt_self (Nat.pos_of_ne_zero h0) (by omega)
        omega
      simp only [digitsRev, h0, if_false, Nat.ofDigits_cons, ih _ hdiv]
      omega

theorem digitsRev_lt : ∀ fuel n, ∀ d ∈ digitsRev fuel n, d < 10 := by
  intro fuel
  induction fuel with
  | zero => intro n d hd; simp [digitsRev] at hd
  | succ f ih =>
    intro n d hd
    by_cases h0 : n = 0
    · simp [digitsRev, h0] at hd
    · simp only [digitsRev, h0, if_false, List.mem_cons] at hd
      rcases hd with h | h
      · omega
      · exact ih _ _ h

theorem digitChar_inj_lt : ∀ a < 10, ∀ b < 10, Nat.digitChar a = Nat.digitChar b → a = b := by
  decide

theorem digitChar_isDigit : ∀ d < 10, (Nat.digitChar d).isDigit = true := by
  decide

theorem map_digitChar_inj :
    ∀ (l₁ l₂ : List Nat), (∀ d ∈ l₁, d < 10) → (∀ d ∈ l₂, d < 10) →
      l₁.map Nat.digitChar = l₂.map Nat.digitChar → l₁ = l₂ := by
  intro l₁
  induction l₁ with
  | nil => intro l₂ _ _ h; cases l₂ <;> simp_all
  | cons a t ih =>
    intro l₂ h₁ h₂ h
    cases l₂ with
    | nil => simp at h
    | cons b t₂ =>
      simp only [List.map_cons, List.cons.injEq] at h
      have ha : a = b :=
        digitChar_inj_lt a (h₁ a (by simp)) b (h₂ b (by simp)) h.1
      have ht : t = t₂ :=
        ih t₂ (fun d hd => h₁ d (by simp [hd])) (fun d hd => h₂ d (by simp [hd])) h.2
      rw [ha, ht]

theorem natChars_injective : Function.Injective natChars := by
  intro m n h
  by_cases hm : m = 0 <;> by_cases hn : n = 0
  · omega
  · exfalso
    simp only [natChars, hm, if_true, hn, if_false] at h
    have hrev : (digitsRev n n).map Nat.digitChar = ['0'] := by
      have := congrArg List.reverse h
      simpa using this.symm
    rcases List.map_eq_cons_iff.mp hrev with ⟨d, rest, hdl, hd, hrest⟩
    have hrest0 : rest = [] := by
      cases rest <;> simp_all
    have hd0 : d = 0 := by
      have hdlt : d < 10 := digitsRev_lt n n d (by rw [hdl]; simp)
      exact digitChar_inj_lt d hdlt 0 (by omega) (by simpa using hd)
    have := ofDigits_digitsRev n n (le_refl n)
    rw [hdl, hrest0, hd0] at this
    simp [Nat.ofDigits] at this
    omega
  · exfalso
    simp only [natChars, hn, if_true, hm, if_false] at h
    have hrev : (digitsRev m m).map Nat.digitChar = ['0'] := by
      have := congrArg List.reverse h
      simpa using this
    rcases List.map_eq_cons_iff.mp hrev with ⟨d, rest, hdl, hd, hrest⟩
    have hrest0 : rest = [] := by
      cases rest <;> simp_all
    have hd0 : d = 0 := by
      have hdlt : d < 10 := digitsRev_lt m m d (by rw [hdl]; simp)
      exact digitChar_inj_lt d hdlt 0 (by omega) (by simpa using hd)
    have := ofDigits_digitsRev m m (le_refl m)
    rw [hdl, hrest0, hd0] at this
    simp [Nat.ofDigits] at this
    omega
  · simp only [natChars, hm, hn, if_false] at h
    have hmap := List.reverse_injective h
    have hdig : digitsRev m m = digitsRev n n :=
      map_digitChar_inj _ _ (digitsRev_lt m m) (digitsRev_lt n n) hmap
    have h₁ := ofDigits_digitsRev m m (le_refl m)
    have h₂ := ofDigits_digitsRev n n (le_refl n)
    rw [hdig] at h₁
    omega

theorem natChars_all_digit : ∀ n, ∀ c ∈ natChars n, c.isDigit = true := by
  intro n c hc
  by_cases h0 : n = 0
  · simp only [natChars, h0, if_true, List.mem_singleton] at hc
    subst hc; decide
  · simp only [natChars, h0, if_false, List.mem_reverse, List.mem_map] at hc
    rcases hc with ⟨d, hd, hdc⟩
    rw [← hdc]
    exact digitChar_isDigit d (digitsRev_lt n n d hd)

theorem natChars_ne_nil : ∀ n, natChars n ≠ [] := by
  intro n
  by_cases h0 : n = 0
  · simp [natChars, h0]
  · simp only [natChars, h0, if_false]
    intro h
    have h1 : (digitsRev n n).map Nat.digitChar = [] := by
      simpa using congrArg List.reverse h
    have h2 : digitsRev n n = [] := by
      cases hdd : digitsRev n n <;> simp_all
    have h3 := ofDigits_digitsRev n n (le_refl n)
    rw [h2, Nat.ofDigits_nil] at h3
    exact h0 h3.symm

theorem natChars_ne_cons_of_not_digit (k : Nat) (c : Char) (hc : c.isDigit = false)
    (cs : List Char) : natChars k ≠ c :: cs := by
  intro h
  have hd := natChars_all_digit k c (by rw [h]; simp)
  rw [hd] at hc
  simp at hc

theorem jsString_injective : Function.Injective jsString := by
  intro x y h
  cases x with
  | int i =>
    cases y with
    | int j =>
      by_cases hi : i < 0 <;> by_cases hj : j < 0
      · simp only [jsString, hi, hj, if_true] at h
        injection h with h1 h2
        have := natChars_injective h2
        exact congrArg JSVal.int (by omega)
      · exfalso
        simp only [jsString, hi, hj, if_true, if_false] at h
        exact natChars_ne_cons_of_not_digit j.toNat '-' (by decide) _ h.symm
      · exfalso
        simp only [jsString, hi, hj, if_true, if_false] at h
        exact natChars_ne_cons_of_not_digit i.toNat '-' (by decide) _ h
      · simp only [jsString, hi, hj, if_false] at h
        have := natChars_injective h
        exact congrArg JSVal.int (by omega)
    | undef =>
      exfalso
      by_cases hi : i < 0
      · simp only [jsString, hi, if_true] at h
        injection h with h1 h2
        exact absurd h1 (by decide)
      · simp only [jsString, hi, if_false] at h
        exact natChars_ne_cons_of_not_digit i.toNat 'u' (by decide) _ h
  | undef =>
    cases y with
    | int j =>
      exfalso
      by_cases hj : j < 0
      · simp only [jsString, hj, if_true] at h
        injection h with h1 h2
        exact absurd h1 (by decide)
      · simp only [jsString, hj, if_false] at h
        exact natChars_ne_cons_of_not_digit j.toNat 'u' (by decide) _ h.symm
    | undef => rfl

theorem sortJS_eq_of_perm {a b : List JSVal} (h : a.Perm b) : sortJS a = sortJS b :=
  @List.eq_of_perm_of_sorted JSVal jsLe
    ⟨fun _ _ h₁ h₂ => jsString_injective (le_antisymm h₁ h₂)⟩ _ _
    ((List.perm_insertionSort jsLe a).trans (h.trans (List.perm_insertionSort jsLe b).symm))
    (List.sorted_insertionSort jsLe a)
    (List.sorted_insertionSort jsLe b)

theorem arraysEqualUnordered_iff_perm (a b : List JSVal) :
    arraysEqualUnordered a b = true ↔ a.Perm b := by
  constructor
  · intro h
    simp only [arraysEqualUnordered, Bool.and_eq_true, decide_eq_true_eq] at h
    have h2 : List.insertionSort jsLe a = List.insertionSort jsLe b := h.2
    have p1 : a.Perm (List.insertionSort jsLe b) := by
      rw [← h2]
      exact (List.perm_insertionSort jsLe a).symm
    exact p1.trans (List.perm_insertionSort jsLe b)
  · intro h
    simp only [arraysEqualUnordered, Bool.and_eq_true, decide_eq_true_eq]
    exact ⟨h.length_eq, sortJS_eq_of_perm h⟩

theorem perm_map_int_iff (a b : List Int) :
    (a.map JSVal.int).Perm (b.map JSVal.int) ↔ a.Perm b := by
  constructor
  · intro h
    have hinj : Function.Injective JSVal.int := by
      intro x y hxy; cases hxy; rfl
    have hm : (↑(a.map JSVal.int) : Multiset JSVal) = ↑(b.map JSVal.int) :=
      Multiset.coe_eq_coe.mpr h
    have : Multiset.map JSVal.int ↑a = Multiset.map JSVal.int ↑b := by
      simpa using hm
    have := Multiset.map_injective hinj this
    exact Multiset.coe_eq_coe.mp this
  · exact fun h => h.map JSVal.int

theorem getParticipant_putParticipant (m : List (String × Participant))
    (pid : String) (p : Participant) :
    getParticipant (putParticipant m pid p) pid = some p := by
  induction m with
  | nil => simp [putParticipant, getParticipant]
  | cons kv rest ih =>
    obtain ⟨k, v⟩ := kv
    by_cases hk : k = pid
    · simp [putParticipant, getParticipant, hk]
    · simp [putParticipant, getParticipant, hk, ih]

theorem getParticipant_putParticipant_ne (m : List (String × Participant))
    (pid k : String) (p : Participant) (h : k ≠ pid) :
    getParticipant (putParticipant m pid p) k = getParticipant m k := by
  induction m with
  | nil =>
    simp only [putParticipant, getParticipant]
    rw [if_neg (fun hh => h hh.symm)]
  | cons kv rest ih =>
    obtain ⟨k', v⟩ := kv
    by_cases hk : k' = pid
    · subst hk
      have hkk : ¬ k' = k := fun hh => h hh.symm
      simp [putParticipant, getParticipant, hkk]
    · by_cases hk2 : k' = k
      · subst hk2
        simp [putParticipant, getParticipant, hk]
      · simp [putParticipant, getParticipant, hk, hk2, ih]

theorem mem_setAdd (l : List String) (x y : String) :
    y ∈ setAdd l x ↔ y ∈ l ∨ y = x := by
  unfold setAdd
  by_cases h : x ∈ l
  · simp only [h, if_true]
    constructor
    · exact Or.inl
    · rintro (hy | rfl)
      exacts [hy, h]
  · simp [h]

theorem mem_setDelete (l : List String) (x y : String) :
    y ∈ setDelete l x ↔ y ∈ l ∧ y ≠ x := by
  simp [setDelete, List.mem_filter]

theorem setAdd_setAdd (l : List String) (x : String) :
    setAdd (setAdd l x) x = setAdd l x := by
  have hx : x ∈ setAdd l x := (mem_setAdd l x x).mpr (Or.inr rfl)
  show (if x ∈ setAdd l x then setAdd l x else setAdd l x ++ [x]) = setAdd l x
  rw [if_pos hx]

theorem setDelete_setDelete (l : List String) (x : String) :
    setDelete (setDelete l x) x = setDelete l x := by
  induction l with
  | nil => rfl
  | cons a t ih =>
    by_cases ha : a = x
    · simp [setDelete, List.filter_cons, ha]
    · simp [setDelete, List.filter_cons, ha]

theorem count_filterMap_some (vs : List (Option Int)) (n : Int) :
    (vs.filterMap id).count n = vs.count (some n) := by
  induction vs with
  | nil => rfl
  | cons v t ih =>
    cases v with
    | none => simp [List.filterMap_cons, List.count_cons, ih]
    | some m =>
      by_cases hm : m = n
      · simp [List.filterMap_cons, List.count_cons, ih, hm]
      · simp [List.filterMap_cons, List.count_cons, ih, hm]

/--
C1: for every participant with at least one question remaining,
`submitAnswer` succeeds and increments `participant.score` by exactly 1
if and only if the recorded normalized selection and the question's
coerced `correct` list are equal as unordered collections (`List.Perm`:
same cardinality, same elements, order irrelevant — the verdict of
`arraysEqualUnordered`); in particular a proper subset and a proper
superset of the correct set leave the score unchanged.
-/
theorem C1_submit_scores_iff_unordered_equal
    (quiz : Quiz) (pid : String) (ans : BodyAnswer) (p : Participant) (q : Question)
    (hp : getParticipant quiz.participants pid = some p)
    (hq : quiz.questions[p.answers.length]? = some q) :
    ∃ quiz' p', submitAnswer quiz pid ans = .ok quiz' ∧
      getParticipant quiz'.participants pid = some p' ∧
      (p'.score = p.score + 1 ↔
        ((normalizeSelected ans).map JSVal.int).Perm (correctIndices q.correct)) ∧
      (¬ ((normalizeSelected ans).map JSVal.int).Perm (correctIndices q.correct) →
        p'.score = p.score) ∧
      (((normalizeSelected ans).map JSVal.int).toFinset ⊂
          (correctIndices q.correct).toFinset → p'.score = p.score) ∧
      ((correctIndices q.correct).toFinset ⊂
          ((normalizeSelected ans).map JSVal.int).toFinset → p'.score = p.score) := by
  by_cases hc : arraysEqualUnordered ((normalizeSelected ans).map JSVal.int)
      (correctIndices q.correct) = true
  · have hperm := (arraysEqualUnordered_iff_perm _ _).mp hc
    have hsub : submitAnswer quiz pid ans = SubmitOutcome.ok
        { quiz with
          participants :=
            putParticipant quiz.participants pid
              { p with
                answers := p.answers ++ [normalizeSelected ans]
                score := p.score + 1 } } := by
      simp only [submitAnswer, hp, hq, hc, if_true]
    refine ⟨_, _, hsub, getParticipant_putParticipant _ _ _, ?_, ?_, ?_, ?_⟩
    · exact iff_of_true rfl hperm
    · intro hn; exact absurd hperm hn
    · intro hss
      exact absurd (List.toFinset_eq_of_perm _ _ hperm) (ne_of_ssubset hss)
    · intro hss
      exact absurd (List.toFinset_eq_of_perm _ _ hperm).symm (ne_of_ssubset hss)
  · have hcf : arraysEqualUnordered ((normalizeSelected ans).map JSVal.int)
        (correctIndices q.correct) = false := eq_false_of_ne_true hc
    have hnperm : ¬ ((normalizeSelected ans).map JSVal.int).Perm (correctIndices q.correct) :=
      fun hpm => hc ((arraysEqualUnordered_iff_perm _ _).mpr hpm)
    have hsub : submitAnswer quiz pid ans = SubmitOutcome.ok
        { quiz with
          participants :=
            putParticipant quiz.participants pid
              { p with answers := p.answers ++ [normalizeSelected ans] } } := by
      simp only [submitAnswer, hp, hq, hcf, Bool.false_eq_true, if_false]
    refine ⟨_, _, hsub, getParticipant_putParticipant _ _ _, ?_, ?_, ?_, ?_⟩
    · constructor
      · intro hs
        have hs2 : p.score = p.score + 1 := hs
        omega
      · intro hpm; exact absurd hpm hnperm
    · intro _; rfl
    · intro _; rfl
    · intro _; rfl

/--
Witness for C1 at a concrete input: the fresh participant `AAAAAA` of
`demoQuiz` submits `[2, 1]` against `correct = [1, 2]`; order is
irrelevant, so the score rises by exactly 1.
-/
theorem C1_witness :
    (getParticipant demoQuiz.participants "AAAAAA" = some demoParticipant ∧
     demoQuiz.questions[demoParticipant.answers.length]? = some demoQuestion) ∧
    (∃ quiz' p', submitAnswer demoQuiz "AAAAAA" (.many [some 2, some 1]) = .ok quiz' ∧
      getParticipant quiz'.participants "AAAAAA" = some p' ∧
      (p'.score = demoParticipant.score + 1 ↔
        ((normalizeSelected (.many [some 2, some 1])).map JSVal.int).Perm
          (correctIndices demoQuestion.correct)) ∧
      (¬ ((normalizeSelected (.many [some 2, some 1])).map JSVal.int).Perm
          (correctIndices demoQuestion.correct) → p'.score = demoParticipant.score) ∧
      (((normalizeSelected (.many [some 2, some 1])).map JSVal.int).toFinset ⊂
          (correctIndices demoQuestion.correct).toFinset → p'.score = demoParticipant.score) ∧
      ((correctIndices demoQuestion.correct).toFinset ⊂
          ((normalizeSelected (.many [some 2, some 1])).map JSVal.int).toFinset →
        p'.score = demoParticipant.score)) :=
  ⟨⟨by decide, by decide⟩,
   C1_submit_scores_iff_unordered_equal demoQuiz "AAAAAA" (.many [some 2, some 1])
     demoParticipant demoQuestion (by decide) (by decide)⟩

/--
C2 (code bug): for a participant whose `answers.length` already equals
`questions.length`, a further submission does not fail with a not-found
error and is not a no-op: the handler pushes the submission onto
`participant.answers` and then throws a TypeError reading `.correct` of
`undefined`, leaving the mutated participant in memory.  Evaluated here
at the concrete completed participant `PPPPPP` of `doneQuiz`.
-/
theorem C2_completed_submit_crashes :
    doneParticipant.answers.length = doneQuiz.questions.length ∧
    submitAnswer doneQuiz "PPPPPP" (.one (some 0)) = SubmitOutcome.crash
      { doneQuiz with participants :=
          [("PPPPPP", { name := "Alice", answers := [[1], [0]], score := 1, ip := "1.2.3.4" })] } := by
  decide

/--
C7 (code bug): the invariant `score ≤ answers.length ≤ questions.length`
is violated by the code: an answer submitted past completion is appended
before the handler crashes, so the stored participant ends with
`answers.length = questions.length + 1` (the first inequality,
`score ≤ answers.length`, still holds at that state).
-/
theorem C7_answers_exceed_questions :
    submitAnswer doneQuiz "PPPPPP" .undef = SubmitOutcome.crash
      { doneQuiz with participants := [("PPPPPP", overflowParticipant)] } ∧
    overflowParticipant.score ≤ overflowParticipant.answers.length ∧
    overflowParticipant.answers.length = doneQuiz.questions.length + 1 := by
  decide

/--
C3 counterexample: the claim says the recorded normalized value is a
deduplicated set of valid in-range option indices.  Submitting the raw
values `["2", "2"]` for the single-option question of `tinyQuiz` records
`[2, 2]`: the duplicate is kept and the index 2 is out of range for the
1-option question, so nothing is deduplicated or range-checked.
-/
theorem C3_counterexample :
    submitAnswer tinyQuiz "QQQQQQ" (.many [some 2, some 2]) = SubmitOutcome.ok
      { tinyQuiz with participants :=
          [("QQQQQQ", { name := "Bob", answers := [[2, 2]], score := 0, ip := "2.2.2.2" })] } ∧
    tinyQuestion.options.map List.length = some 1 ∧
    ¬ ([(2 : Int), 2].Nodup) ∧
    ¬ ((2 : Int) < 1) := by
  refine ⟨by decide, by decide, by decide, by decide⟩

/--
C3 (amended): the recorded value is exactly the `parseInt`-successful
entries of the submission, in submission order: entries that parse to an
integer are kept (with multiplicity — duplicates are not removed, and no
range check against the question's options is performed), and only the
entries whose `parseInt` is `NaN` are dropped silently.
-/
theorem C3_amended_normalization
    (quiz : Quiz) (pid : String) (vs : List (Option Int)) (p : Participant)
    (hp : getParticipant quiz.participants pid = some p) :
    ∃ quiz' p', (submitAnswer quiz pid (.many vs) = SubmitOutcome.ok quiz' ∨
        submitAnswer quiz pid (.many vs) = SubmitOutcome.crash quiz') ∧
      getParticipant quiz'.participants pid = some p' ∧
      p'.answers = p.answers ++ [vs.filterMap id] ∧
      normalizeSelected (.many vs) = vs.filterMap id ∧
      (∀ n : Int, (vs.filterMap id).count n = vs.count (some n)) := by
  cases hq : quiz.questions[p.answers.length]? with
  | none =>
    have hsub : submitAnswer quiz pid (.many vs) = SubmitOutcome.crash
        { quiz with
          participants :=
            putParticipant quiz.participants pid
              { p with answers := p.answers ++ [normalizeSelected (.many vs)] } } := by
      simp only [submitAnswer, hp, hq]
    exact ⟨_, _, Or.inr hsub, getParticipant_putParticipant _ _ _, rfl, rfl,
      fun n => count_filterMap_some vs n⟩
  | some q =>
    by_cases hc : arraysEqualUnordered ((normalizeSelected (.many vs)).map JSVal.int)
        (correctIndices q.correct) = true
    · have hsub : submitAnswer quiz pid (.many vs) = SubmitOutcome.ok
          { quiz with
            participants :=
              putParticipant quiz.participants pid
                { p with
                  answers := p.answers ++ [normalizeSelected (.many vs)]
                  score := p.score + 1 } } := by
        simp only [submitAnswer, hp, hq, hc, if_true]
      exact ⟨_, _, Or.inl hsub, getParticipant_putParticipant _ _ _, rfl, rfl,
        fun n => count_filterMap_some vs n⟩
    · have hcf := eq_false_of_ne_true hc
      have hsub : submitAnswer quiz pid (.many vs) = SubmitOutcome.ok
          { quiz with
            participants :=
              putParticipant quiz.participants pid
                { p with answers := p.answers ++ [normalizeSelected (.many vs)] } } := by
        simp only [submitAnswer, hp, hq, hcf, Bool.false_eq_true, if_false]
      exact ⟨_, _, Or.inl hsub, getParticipant_putParticipant _ _ _, rfl, rfl,
        fun n => count_filterMap_some vs n⟩

/--
Witness for C3 (amended) at a concrete input: participant `QQQQQQ` of
`tinyQuiz` submits raw values parsing to `1` and `NaN`; the recorded
entry is `[1]` — the unparsable entry dropped, the integer kept.
-/
theorem C3_amended_witness :
    getParticipant tinyQuiz.participants "QQQQQQ" =
      some { name := "Bob", answers := [], score := 0, ip := "2.2.2.2" } ∧
    (∃ quiz' p', (submitAnswer tinyQuiz "QQQQQQ" (.many [some 1, none]) = SubmitOutcome.ok quiz' ∨
        submitAnswer tinyQuiz "QQQQQQ" (.many [some 1, none]) = SubmitOutcome.crash quiz') ∧
      getParticipant quiz'.participants "QQQQQQ" = some p' ∧
      p'.answers = [] ++ [([some (1 : Int), none].filterMap id)] ∧
      normalizeSelected (.many [some 1, none]) = [some (1 : Int), none].filterMap id ∧
      (∀ n : Int, ([some (1 : Int), none].filterMap id).count n =
        [some (1 : Int), none].count (some n))) :=
  ⟨by decide,
   C3_amended_normalization tinyQuiz "QQQQQQ" [some 1, none]
     { name := "Bob", answers := [], score := 0, ip := "2.2.2.2" } (by decide)⟩

/--
C4 counterexample: the claim says creation fails with a validation error
when any question is malformed (missing `text`, `options` or `correct`).
Creating a quiz with the completely empty question object succeeds: the
handler never inspects the question structure.
-/
theorem C4_counterexample :
    createQuiz (some "T") (.arr [emptyQuestion]) = Except.ok
      { title := "T", questions := [emptyQuestion], participants := [],
        whitelist := [], blacklist := [] } := by
  rfl

/--
C4 (amended): `createQuiz` fails with the validation error (the 400
"Please provide a quiz title and at least one question" response,
distinct from the invalid-data error of a failed `JSON.parse`) whenever
the title is missing or trims to the empty string, or the parsed data is
not a non-empty array; the structure of the individual questions is not
validated (any array of question objects, malformed or not, is accepted).
On success the quiz holds the trimmed title, the questions exactly as
parsed, and empty participants, whitelist and blacklist.
-/
theorem C4_create_validation (bodyTitle : Option String) (data : ParsedData) :
    (∀ quiz, createQuiz bodyTitle data = Except.ok quiz →
      quiz.participants = [] ∧ quiz.whitelist = [] ∧ quiz.blacklist = [] ∧
      ∃ t qs, bodyTitle = some t ∧ jsTrim t ≠ "" ∧ data = .arr qs ∧ qs ≠ [] ∧
        quiz.title = jsTrim t ∧ quiz.questions = qs) ∧
    (∀ t qs, bodyTitle = some t → jsTrim t ≠ "" → data = .arr qs → qs ≠ [] →
      createQuiz bodyTitle data = Except.ok
        { title := jsTrim t, questions := qs, participants := [],
          whitelist := [], blacklist := [] }) ∧
    (data = .nonArray → createQuiz bodyTitle data = Except.error .validation) ∧
    (∀ qs, data = .arr qs →
      (bodyTitle = none ∨ (∃ t, bodyTitle = some t ∧ jsTrim t = "") ∨ qs = []) →
      createQuiz bodyTitle data = Except.error .validation) := by
  refine ⟨?_, ?_, ?_, ?_⟩
  · intro quiz hok
    cases data with
    | malformed => exact absurd hok (by simp [createQuiz])
    | nonArray => exact absurd hok (by simp [createQuiz])
    | arr qs =>
      cases bodyTitle with
      | none => exact absurd hok (by simp [createQuiz])
      | some t =>
        by_cases ht : jsTrim t = ""
        · exact absurd hok (by simp [createQuiz, ht])
        · by_cases hqs : qs = []
          · exact absurd hok (by simp [createQuiz, ht, hqs])
          · simp only [createQuiz, ht, if_false, hqs] at hok
            cases hok
            exact ⟨rfl, rfl, rfl, t, qs, rfl, ht, rfl, hqs, rfl, rfl⟩
  · intro t qs hbt ht hdata hqs
    subst hbt
    subst hdata
    simp [createQuiz, ht, hqs]
  · intro hdata
    subst hdata
    cases bodyTitle <;> rfl
  · intro qs hdata hbad
    subst hdata
    rcases hbad with hnone | ⟨t, hbt, ht⟩ | hqs
    · subst hnone
      rfl
    · subst hbt
      simp [createQuiz, ht]
    · subst hqs
      cases bodyTitle with
      | none => rfl
      | some t =>
        by_cases ht : jsTrim t = ""
        · simp [createQuiz, ht]
        · simp [createQuiz, ht]

/--
Witness for C4 (amended) at concrete inputs: a padded title is trimmed
and an arbitrary question list is stored verbatim; a whitespace-only
title and an empty question array each produce the validation error.
-/
theorem C4_witness :
    createQuiz (some " Math ") (.arr [demoQuestion]) = Except.ok
      { title := jsTrim " Math ", questions := [demoQuestion], participants := [],
        whitelist := [], blacklist := [] } ∧
    createQuiz (some "   ") (.arr [demoQuestion]) = Except.error .validation ∧
    createQuiz (some "Math") (.arr []) = Except.error .validation :=
  ⟨(C4_create_validation (some " Math ") (.arr [demoQuestion])).2.1
     " Math " [demoQuestion] rfl (by decide) rfl (by decide),
   (C4_create_validation (some "   ") (.arr [demoQuestion])).2.2.2
     [demoQuestion] rfl (Or.inr (Or.inl ⟨"   ", rfl, by decide⟩)),
   (C4_create_validation (some "Math") (.arr [])).2.2.2
     [] rfl (Or.inr (Or.inr rfl))⟩

/--
C5: for every join attempt that passes name validation, access control is
evaluated in this order against the requester IP: a blacklisted IP fails
with the access-denied error even when the IP is also whitelisted;
otherwise a non-empty whitelist not containing the IP fails with the
access-restricted error; otherwise the participant is admitted.
-/
theorem C5_join_access_order
    (quiz : Quiz) (bodyName : Option String) (ip pid : String)
    (hname : jsTrim (bodyName.getD "") ≠ "") :
    (ip ∈ quiz.blacklist → join quiz bodyName ip pid = Except.error .accessDenied) ∧
    (ip ∉ quiz.blacklist → quiz.whitelist ≠ [] → ip ∉ quiz.whitelist →
      join quiz bodyName ip pid = Except.error .accessRestricted) ∧
    (ip ∉ quiz.blacklist → (quiz.whitelist = [] ∨ ip ∈ quiz.whitelist) →
      join quiz bodyName ip pid = Except.ok
        { quiz with
          participants :=
            putParticipant quiz.participants pid
              { name := jsTrim (bodyName.getD ""), answers := [], score := 0, ip := ip } }) := by
  refine ⟨?_, ?_, ?_⟩
  · intro hbl
    simp [join, hname, hbl]
  · intro hbl hwl hnwl
    simp [join, hname, hbl, hwl, hnwl]
  · intro hbl hwl
    rcases hwl with hwl | hwl
    · simp [join, hname, hbl, hwl]
    · simp [join, hname, hbl, hwl]

/--
Witness for C5 at concrete inputs: on `guardQuiz` the IP `9.9.9.9` sits
in both lists and is denied (blacklist precedence); `5.5.5.5` is neither
blacklisted nor whitelisted and is restricted; on `demoQuiz` (empty
whitelist) `5.5.5.5` is admitted.
-/
theorem C5_witness :
    join guardQuiz (some "Ann") "9.9.9.9" "BBBBBB" = Except.error .accessDenied ∧
    "9.9.9.9" ∈ guardQuiz.whitelist ∧
    join guardQuiz (some "Ann") "5.5.5.5" "BBBBBB" = Except.error .accessRestricted ∧
    join demoQuiz (some "Ann") "5.5.5.5" "BBBBBB" = Except.ok
      { demoQuiz with
        participants :=
          putParticipant demoQuiz.participants "BBBBBB"
            { name := jsTrim ((some "Ann").getD ""), answers := [], score := 0,
              ip := "5.5.5.5" } } :=
  ⟨(C5_join_access_order guardQuiz (some "Ann") "9.9.9.9" "BBBBBB" (by decide)).1 (by decide),
   by decide,
   (C5_join_access_order guardQuiz (some "Ann") "5.5.5.5" "BBBBBB" (by decide)).2.1
     (by decide) (by decide) (by decide),
   (C5_join_access_order demoQuiz (some "Ann") "5.5.5.5" "BBBBBB" (by decide)).2.2
     (by decide) (Or.inl rfl)⟩

/--
C6 counterexample: the claim says no join ever overwrites an existing
participant of the same quiz.  The join handler draws a participant id
without checking it against the existing keys, so a colliding id (here
`ZZZZZZ`, a possible `generateCode` output) replaces the stored
participant — `veteranParticipant` and their recorded score are lost.
-/
theorem C6_counterexample :
    getParticipant collisionQuiz.participants "ZZZZZZ" = some veteranParticipant ∧
    veteranParticipant.score = 1 ∧
    IsGeneratedCode "ZZZZZZ" ∧
    join collisionQuiz (some "Bob") "2.2.2.2" "ZZZZZZ" = Except.ok
      { collisionQuiz with participants :=
          [("ZZZZZZ", { name := "Bob", answers := [], score := 0, ip := "2.2.2.2" })] } := by
  refine ⟨by decide, by decide, by decide, by rfl⟩

/--
C6 (amended): every successful join stores a fresh participant with
empty `answers` and `score = 0` under the supplied generated id and
leaves every other id untouched, but uniqueness of the id is not
checked: when the id already exists the stored participant is replaced.
-/
theorem C6_join_creates_fresh_participant
    (quiz : Quiz) (bodyName : Option String) (ip pid : String) (quiz' : Quiz)
    (h : join quiz bodyName ip pid = Except.ok quiz') :
    getParticipant quiz'.participants pid =
      some { name := jsTrim (bodyName.getD ""), answers := [], score := 0, ip := ip } ∧
    (∀ k, k ≠ pid → getParticipant quiz'.participants k = getParticipant quiz.participants k) := by
  simp only [join] at h
  split at h
  · exact absurd h (by simp)
  · split at h
    · exact absurd h (by simp)
    · split at h
      · exact absurd h (by simp)
      · cases h
        exact ⟨getParticipant_putParticipant _ _ _,
          fun k hk => getParticipant_putParticipant_ne _ _ _ _ hk⟩

/--
Witness for C6 (amended) at a concrete input: joining `demoQuiz` with
the fresh id `BBBBBB` stores a zero-score participant there and leaves
`AAAAAA` unchanged.
-/
theorem C6_witness :
    getParticipant
      { demoQuiz with
        participants :=
          putParticipant demoQuiz.participants "BBBBBB"
            { name := jsTrim ((some "Bob").getD ""), answers := [], score := 0,
              ip := "7.7.7.7" } }.participants "BBBBBB" =
      some { name := jsTrim ((some "Bob").getD ""), answers := [], score := 0,
             ip := "7.7.7.7" } ∧
    getParticipant
      { demoQuiz with
        participants :=
          putParticipant demoQuiz.participants "BBBBBB"
            { name := jsTrim ((some "Bob").getD ""), answers := [], score := 0,
              ip := "7.7.7.7" } }.participants "AAAAAA" =
      getParticipant demoQuiz.participants "AAAAAA" :=
  have happ := C6_join_creates_fresh_participant demoQuiz (some "Bob") "7.7.7.7" "BBBBBB"
    { demoQuiz with
      participants :=
        putParticipant demoQuiz.participants "BBBBBB"
          { name := jsTrim ((some "Bob").getD ""), answers := [], score := 0,
            ip := "7.7.7.7" } } (by rfl)
  ⟨happ.1, happ.2 "AAAAAA" (by decide)⟩

theorem addToWhitelist_twice (quiz : Quiz) (bodyIp : Option String) :
    addToWhitelist (addToWhitelist quiz bodyIp) bodyIp = addToWhitelist quiz bodyIp := by
  by_cases he : jsTrim (bodyIp.getD "") = ""
  · simp [addToWhitelist, he]
  · simp [addToWhitelist, he, setAdd_setAdd, setDelete_setDelete]

theorem addToBlacklist_twice (quiz : Quiz) (bodyIp : Option String) :
    addToBlacklist (addToBlacklist quiz bodyIp) bodyIp = addToBlacklist quiz bodyIp := by
  by_cases he : jsTrim (bodyIp.getD "") = ""
  · simp [addToBlacklist, he]
  · simp [addToBlacklist, he, setAdd_setAdd, setDelete_setDelete]

theorem applyOp_preserves_exclusion (quiz : Quiz) (op : ModOp)
    (h : ∀ x ∈ quiz.whitelist, x ∉ quiz.blacklist) :
    ∀ x ∈ (applyOp quiz op).whitelist, x ∉ (applyOp quiz op).blacklist := by
  cases op with
  | wl ipo =>
    intro x hx hbx
    simp only [applyOp, addToWhitelist] at hx hbx
    by_cases he : jsTrim (ipo.getD "") = ""
    · rw [if_pos he] at hx hbx
      exact h x hx hbx
    · rw [if_neg he] at hx hbx
      rcases (mem_setAdd _ _ _).mp hx with hxl | hxe
      · exact h x hxl ((mem_setDelete _ _ _).mp hbx).1
      · exact ((mem_setDelete _ _ _).mp hbx).2 hxe
  | bl ipo =>
    intro x hx hbx
    simp only [applyOp, addToBlacklist] at hx hbx
    by_cases he : jsTrim (ipo.getD "") = ""
    · rw [if_pos he] at hx hbx
      exact h x hx hbx
    · rw [if_neg he] at hx hbx
      have hxd := (mem_setDelete _ _ _).mp hx
      rcases (mem_setAdd _ _ _).mp hbx with hbl | hbe
      · exact h x hxd.1 hbl
      · exact hxd.2 hbe

theorem applyOps_preserves_exclusion (ops : List ModOp) :
    ∀ quiz, (∀ x ∈ quiz.whitelist, x ∉ quiz.blacklist) →
      ∀ x ∈ (applyOps quiz ops).whitelist, x ∉ (applyOps quiz ops).blacklist := by
  induction ops with
  | nil => intro quiz h; exact h
  | cons op rest ih =>
    intro quiz h
    exact ih (applyOp quiz op) (applyOp_preserves_exclusion quiz op h)

/--
C8: the whitelist and blacklist operations are idempotent set-inserts,
each first removing the given IP from the opposing list, so starting
from mutually exclusive lists no IP is ever in both lists after any
sequence of operations; a blank (trims-to-empty) IP makes either
operation a no-op rather than an error.
-/
theorem C8_access_list_invariants
    (quiz : Quiz) (bodyIp : Option String) (ops : List ModOp)
    (hdisj : ∀ x ∈ quiz.whitelist, x ∉ quiz.blacklist) :
    addToWhitelist (addToWhitelist quiz bodyIp) bodyIp = addToWhitelist quiz bodyIp ∧
    addToBlacklist (addToBlacklist quiz bodyIp) bodyIp = addToBlacklist quiz bodyIp ∧
    (jsTrim (bodyIp.getD "") = "" →
      addToWhitelist quiz bodyIp = quiz ∧ addToBlacklist quiz bodyIp = quiz) ∧
    (∀ x ∈ (applyOps quiz ops).whitelist, x ∉ (applyOps quiz ops).blacklist) :=
  ⟨addToWhitelist_twice quiz bodyIp, addToBlacklist_twice quiz bodyIp,
   fun he => ⟨by simp [addToWhitelist, he], by simp [addToBlacklist, he]⟩,
   applyOps_preserves_exclusion ops quiz hdisj⟩

/--
Witness for C8 at concrete inputs: whitelisting `1.1.1.1` twice equals
doing it once; whitelisting a blank IP is a no-op; after blacklisting
and then whitelisting `1.1.1.1` the IP is no longer blacklisted.
-/
theorem C8_witness :
    addToWhitelist (addToWhitelist demoQuiz (some "1.1.1.1")) (some "1.1.1.1") =
      addToWhitelist demoQuiz (some "1.1.1.1") ∧
    addToWhitelist demoQuiz (some "  ") = demoQuiz ∧
    "1.1.1.1" ∉ (applyOps demoQuiz demoOps).blacklist :=
  ⟨(C8_access_list_invariants demoQuiz (some "1.1.1.1") demoOps (by decide)).1,
   ((C8_access_list_invariants demoQuiz (some "  ") demoOps (by decide)).2.2.1 (by decide)).1,
   (C8_access_list_invariants demoQuiz (some "1.1.1.1") demoOps (by decide)).2.2.2
     "1.1.1.1" (by decide)⟩

/--
C9: access control is evaluated only at join time: the outcome of
`submitAnswer` on a state is the outcome on the same state with any
other whitelist and blacklist, with exactly those lists substituted in
the resulting state — the recorded answer and any score change are
identical, so in particular blacklisting a participant's IP after they
joined does not prevent further submissions.
-/
theorem C9_submit_ignores_access_lists
    (quiz : Quiz) (wl bl : List String) (pid : String) (ans : BodyAnswer) :
    submitAnswer (withLists quiz wl bl) pid ans =
      mapOutcome (fun q => withLists q wl bl) (submitAnswer quiz pid ans) := by
  cases hgp : getParticipant quiz.participants pid with
  | none => simp only [submitAnswer, withLists, hgp]; rfl
  | some p =>
    cases hq : quiz.questions[p.answers.length]? with
    | none => simp only [submitAnswer, withLists, hgp, hq]; rfl
    | some q => simp only [submitAnswer, withLists, hgp, hq]; rfl

/--
C10: the `correct` field is coerced by the single shared rule
`correctIndices` (a non-array value becomes the one-element collection
holding it) both at submit time and in the result view's correctness
flag, so the flag recomputed by `resultIsCorrect` for the just-recorded
answer agrees exactly with whether the submission incremented the score;
in particular, when `correct` is a single value, submitting exactly that
one index is scored as correct.
-/
theorem C10_single_correct_consistent
    (quiz : Quiz) (pid : String) (ans : BodyAnswer) (p : Participant) (q : Question)
    (hp : getParticipant quiz.participants pid = some p)
    (hq : quiz.questions[p.answers.length]? = some q) :
    ∃ quiz' p', submitAnswer quiz pid ans = SubmitOutcome.ok quiz' ∧
      getParticipant quiz'.participants pid = some p' ∧
      (resultIsCorrect q p' p.answers.length = true ↔ p'.score = p.score + 1) ∧
      (∀ v : Int, q.correct = .single v → correctIndices q.correct = [JSVal.int v]) ∧
      (∀ v : Int, q.correct = .single v → ans = .one (some v) →
        p'.score = p.score + 1) := by
  by_cases hc : arraysEqualUnordered ((normalizeSelected ans).map JSVal.int)
      (correctIndices q.correct) = true
  · have hsub : submitAnswer quiz pid ans = SubmitOutcome.ok
        { quiz with
          participants :=
            putParticipant quiz.participants pid
              { p with
                answers := p.answers ++ [normalizeSelected ans]
                score := p.score + 1 } } := by
      simp only [submitAnswer, hp, hq, hc, if_true]
    refine ⟨_, _, hsub, getParticipant_putParticipant _ _ _, ?_, ?_, ?_⟩
    · have hres : resultIsCorrect q
          { p with
            answers := p.answers ++ [normalizeSelected ans]
            score := p.score + 1 } p.answers.length = true := by
        simp only [resultIsCorrect, List.getElem?_concat_length, Option.getD_some]
        exact hc
      exact iff_of_true hres rfl
    · intro v hv; rw [hv]; rfl
    · intro v hv ha; rfl
  · have hcf := eq_false_of_ne_true hc
    have hsub : submitAnswer quiz pid ans = SubmitOutcome.ok
        { quiz with
          participants :=
            putParticipant quiz.participants pid
              { p with answers := p.answers ++ [normalizeSelected ans] } } := by
      simp only [submitAnswer, hp, hq, hcf, Bool.false_eq_true, if_false]
    refine ⟨_, _, hsub, getParticipant_putParticipant _ _ _, ?_, ?_, ?_⟩
    · have hres : resultIsCorrect q
          { p with answers := p.answers ++ [normalizeSelected ans] }
          p.answers.length = false := by
        simp only [resultIsCorrect, List.getElem?_concat_length, Option.getD_some]
        exact hcf
      refine iff_of_false (by simp [hres]) ?_
      intro hs
      have hs2 : p.score = p.score + 1 := hs
      omega
    · intro v hv; rw [hv]; rfl
    · intro v hv ha
      exfalso
      apply hc
      rw [hv, ha]
      exact (arraysEqualUnordered_iff_perm _ _).mpr (List.Perm.refl _)

/--
Witness for C10 at a concrete input: participant `CCCCCC` of
`singleQuiz` submits the single value `1` against `correct = 1` (not an
array) and is scored as correct, and the result-view flag agrees.
-/
theorem C10_witness :
    (getParticipant singleQuiz.participants "CCCCCC" =
      some { name := "Cara", answers := [], score := 0, ip := "4.4.4.4" } ∧
     singleQuiz.questions[(0 : Nat)]? = some singleQ) ∧
    (∃ quiz' p', submitAnswer singleQuiz "CCCCCC" (.one (some 1)) = SubmitOutcome.ok quiz' ∧
      getParticipant quiz'.participants "CCCCCC" = some p' ∧
      (resultIsCorrect singleQ p' 0 = true ↔ p'.score = 0 + 1) ∧
      (∀ v : Int, singleQ.correct = .single v → correctIndices singleQ.correct = [JSVal.int v]) ∧
      (∀ v : Int, singleQ.correct = .single v → BodyAnswer.one (some 1) = .one (some v) →
        p'.score = 0 + 1)) :=
  ⟨⟨by decide, by decide⟩,
   C10_single_correct_consistent singleQuiz "CCCCCC" (.one (some 1))
     { name := "Cara", answers := [], score := 0, ip := "4.4.4.4" } singleQ
     (by decide) (by decide)⟩
